import Mathlib

/-
Verification development for the thinkdrop intent-classification service.

The classification core is embedded shallowly:
  * JavaScript numbers are modelled as `ℚ` in the score pipeline (all score
    arithmetic in the source is exact decimal multiplication and division)
    and as `ℝ` in the cosine-similarity layer (which uses `Math.sqrt`).
  * The score object built by `calculateIntentScores` always carries exactly
    the eight intent keys of `seedExamples`, in insertion order
    `memory_store, memory_retrieve, web_search, general_knowledge, command,
    question, greeting, context`; it is modelled as the structure `Scores`,
    and `Object.entries` as `toEntries`.
  * `Array.prototype.sort` is stable; it is modelled by `List.insertionSort`
    with a non-strict comparison, which is also stable.
  * The external collaborators (the embedding generator, the compromise NLP
    library, the Bayes classifier of the hybrid parser) are parameters of the
    model; code of the repository itself is translated from the source.
-/

/-! ## String utilities: JavaScript `toLowerCase`, `trim`, space-split,
regex word-boundary search and anchored prefix alternation -/

def lowerStr (s : String) : String := String.mk (s.data.map Char.toLower)

def jsTrim (s : String) : String :=
  String.mk (((s.data.dropWhile Char.isWhitespace).reverse.dropWhile Char.isWhitespace).reverse)

/-- JavaScript regex `\w`: `[A-Za-z0-9_]`. -/
def jsWordChar (c : Char) : Bool := c.isAlphanum || c = '_'

def boundaryOk (prev : Option Char) : Bool :=
  match prev with
  | none => true
  | some c => !jsWordChar c

/-- One candidate match position for `\bpat\b` (every pattern used in the
source begins and ends with a word character, so both boundaries require a
non-word neighbour or the string edge). -/
def wbMatchAt (prev : Option Char) (s pat : List Char) : Bool :=
  pat.isPrefixOf s && boundaryOk prev &&
    (match s.drop pat.length with
     | [] => true
     | c :: _ => !jsWordChar c)

def wbSearch (prev : Option Char) (s pat : List Char) : Bool :=
  match s with
  | [] => wbMatchAt prev [] pat
  | c :: rest => wbMatchAt prev (c :: rest) pat || wbSearch (some c) rest pat

/-- `\bpat\b` occurs somewhere in `msg` (JavaScript `lowerMessage.match(/\b(...)\b/)`). -/
def containsWordB (msg pat : String) : Bool := wbSearch none msg.data pat.data

def anyWordB (msg : String) (pats : List String) : Bool := pats.any (containsWordB msg)

/-- Anchored alternation `^(p1|p2|...)`: the message starts with one of the
alternatives. -/
def startsAny (msg : String) (pats : List String) : Bool :=
  pats.any (fun p => p.data.isPrefixOf msg.data)

/-- The trimmed message ends with a question mark (`trim` then `endsWith`). -/
def endsInQuestionMark (s : String) : Bool :=
  match (jsTrim s).data.reverse with
  | [] => false
  | c :: _ => c = '?'

/-- JavaScript `String.prototype.split` at single spaces, on a list of characters. -/
def splitSp : List Char → List (List Char)
  | [] => [[]]
  | c :: rest =>
    let r := splitSp rest
    if c = ' ' then [] :: r
    else
      match r with
      | [] => [[c]]
      | h :: t => (c :: h) :: t

def wordCount (s : String) : Nat := (splitSp s.data).length

/-- `String.prototype.slice(a, b)` for the non-negative, in-range indices the
entity merger uses. -/
def strSlice (msg : String) (a b : Int) : String :=
  String.mk ((msg.data.drop a.toNat).take (b - a).toNat)

def strTake (s : String) (n : Nat) : String := String.mk (s.data.take n)

def apos : Char := Char.ofNat 39

/-! ## Kernel-computable rational arithmetic

`Rat.mul`, `Rat.add` and `Rat.sub` are `@[irreducible]` in this toolchain, so
terms built from them cannot be evaluated by `decide`.  The JavaScript number
operations of the source are therefore modelled by the equivalent reducible
forms below (each proved equal to the Mathlib operation), and the decimal
literals of the source are written `mkRat` (`1.2` is `mkRat 12 10`, ...). -/

def jsMul (a b : ℚ) : ℚ := mkRat (a.num * b.num) (a.den * b.den)

def jsSub (a b : ℚ) : ℚ := mkRat (a.num * b.den - b.num * a.den) (a.den * b.den)

def jsDiv (a b : ℚ) : ℚ := Rat.divInt (a.num * b.den) (a.den * b.num)

/-- `Math.max(a, b)`. -/
def jsMax (a b : ℚ) : ℚ := if a < b then b else a

/-- `Math.abs(q)`. -/
def jsAbs (q : ℚ) : ℚ := if q < 0 then mkRat (-q.num) q.den else q

lemma mkRat_cast_eq (n : ℤ) (d : ℕ) : mkRat n d = (n : ℚ) / (d : ℚ) := by
  rw [Rat.mkRat_eq_divInt, Rat.divInt_eq_div]
  norm_cast

lemma den_cast_ne {a : ℚ} : ((a.den : ℚ)) ≠ 0 := by exact_mod_cast a.den_ne_zero

lemma num_cast_eq (a : ℚ) : (a.num : ℚ) = a * a.den :=
  (div_eq_iff den_cast_ne).mp (Rat.num_div_den a)

lemma jsMul_eq (a b : ℚ) : jsMul a b = a * b := by
  rw [jsMul, mkRat_cast_eq]
  push_cast
  rw [num_cast_eq a, num_cast_eq b, div_eq_iff (mul_ne_zero den_cast_ne den_cast_ne)]
  ring

lemma jsSub_eq (a b : ℚ) : jsSub a b = a - b := by
  rw [jsSub, mkRat_cast_eq]
  push_cast
  rw [num_cast_eq a, num_cast_eq b, div_eq_iff (mul_ne_zero den_cast_ne den_cast_ne)]
  ring

lemma jsDiv_eq (a b : ℚ) : jsDiv a b = a / b := by
  rw [jsDiv, Rat.divInt_eq_div]
  rcases eq_or_ne b 0 with hb | hb
  · subst hb
    simp
  · have hbn : ((b.num : ℚ)) ≠ 0 := by exact_mod_cast Rat.num_ne_zero.mpr hb
    push_cast
    rw [num_cast_eq a, num_cast_eq b,
      div_eq_div_iff (mul_ne_zero den_cast_ne (mul_ne_zero hb den_cast_ne)) hb]
    ring

lemma jsMax_eq (a b : ℚ) : jsMax a b = max a b := by
  unfold jsMax
  rcases lt_or_le a b with h | h
  · rw [if_pos h, max_eq_right h.le]
  · rw [if_neg (not_lt.mpr h), max_eq_left h]

lemma jsAbs_eq (q : ℚ) : jsAbs q = |q| := by
  unfold jsAbs
  rcases lt_or_le q 0 with h | h
  · rw [if_pos h, abs_of_neg h, mkRat_cast_eq]
    push_cast
    rw [num_cast_eq q]
    field_simp
  · rw [if_neg (not_lt.mpr h), abs_of_nonneg h]

/-! ## Data model -/

/-- Entity record as produced by `extractEntities`; the source field `end` is
renamed `endPos` (`end` is a Lean keyword). `start`/`endPos` are `Int` as in
JavaScript arithmetic on them. -/
structure Entity where
  type : String
  value : String
  entity_type : String
  confidence : ℚ
  start : Int
  endPos : Int
deriving DecidableEq

/-- The score object of `DistilBertIntentParser`: always exactly the eight
keys of `seedExamples`, in insertion order. -/
structure Scores where
  memory_store : ℚ
  memory_retrieve : ℚ
  web_search : ℚ
  general_knowledge : ℚ
  command : ℚ
  question : ℚ
  greeting : ℚ
  context : ℚ
deriving DecidableEq

/-- `Object.entries(scores)` in the key insertion order of `seedExamples`. -/
def toEntries (s : Scores) : List (String × ℚ) :=
  [("memory_store", s.memory_store),
   ("memory_retrieve", s.memory_retrieve),
   ("web_search", s.web_search),
   ("general_knowledge", s.general_knowledge),
   ("command", s.command),
   ("question", s.question),
   ("greeting", s.greeting),
   ("context", s.context)]

def intentNames : List String :=
  ["memory_store", "memory_retrieve", "web_search", "general_knowledge",
   "command", "question", "greeting", "context"]

/-- `scores[name]` for the names `getTopIntent` can return (all others are
unreachable: JavaScript would yield `undefined`). -/
def scoreOf (s : Scores) (name : String) : ℚ :=
  match name with
  | "memory_store" => s.memory_store
  | "memory_retrieve" => s.memory_retrieve
  | "web_search" => s.web_search
  | "general_knowledge" => s.general_knowledge
  | "command" => s.command
  | "question" => s.question
  | "greeting" => s.greeting
  | "context" => s.context
  | _ => 0

/-! ## Heuristic booster (`applyEntityBoosting`) -/

def questionStartWords : List String :=
  ["what", "when", "where", "who", "which", "why", "how", "whose", "whom",
   "can", "could", "would", "should", "is", "are", "do", "does", "did"]

def retrieveStartWords : List String := ["what", "when", "where", "who", "which"]

def commandStartWords : List String :=
  ["open", "close", "launch", "take", "start", "stop", "play", "set"]

def greetingStartWords : List String :=
  ["hi", "hello", "hey", "good morning", "good afternoon"]

def storageVerbPhrases : List String :=
  ["remember", "save", "note", "store", "keep",
   "don" ++ String.singleton apos ++ "t forget",
   "keep in mind", "write down", "jot down", "set a reminder", "remind me",
   "create a reminder", "add a reminder"]

def factualQuestionPhrases : List String :=
  ["who is", "what is", "when did", "where is", "how much", "how many",
   "what" ++ String.singleton apos ++ "s the",
   "who" ++ String.singleton apos ++ "s the",
   "when was", "where was"]

def currentEventWords : List String :=
  ["current", "now", "today", "latest", "recent", "this year", "2024", "2025", "2026"]

def leadershipWords : List String :=
  ["president", "prime minister", "ceo", "leader", "governor", "mayor", "king", "queen"]

def priceWords : List String := ["price", "cost", "stock", "worth", "value", "how much"]

def weatherWords : List String :=
  ["weather", "temperature", "forecast", "rain", "snow", "sunny", "cloudy"]

def newsWords : List String :=
  ["news", "latest", "happened", "happening", "event", "announcement"]

def sportsWords : List String := ["score", "game", "match", "won", "lost", "team", "player"]

def codeRequestPhrases : List String :=
  ["give me", "show me", "how do i", "how to", "example of", "tutorial", "code for", "script"]

def programmingWords : List String :=
  ["python", "javascript", "node", "react", "api", "function", "class", "code",
   "script", "program", "html", "css", "sql", "database", "docker", "kubernetes"]

def scaleMemoryStore (k : ℚ) (s : Scores) : Scores :=
  { s with memory_store := jsMul s.memory_store k }

def scaleMemoryRetrieve (k : ℚ) (s : Scores) : Scores :=
  { s with memory_retrieve := jsMul s.memory_retrieve k }

def scaleWebSearch (k : ℚ) (s : Scores) : Scores :=
  { s with web_search := jsMul s.web_search k }

def scaleCommand (k : ℚ) (s : Scores) : Scores :=
  { s with command := jsMul s.command k }

def scaleQuestion (k : ℚ) (s : Scores) : Scores :=
  { s with question := jsMul s.question k }

def scaleGreeting (k : ℚ) (s : Scores) : Scores :=
  { s with greeting := jsMul s.greeting k }

def applyIf (b : Bool) (f : Scores → Scores) (s : Scores) : Scores :=
  if b then f s else s

/-- `Math.max(...Object.values(scores))`. -/
def maxScore (s : Scores) : ℚ :=
  jsMax s.memory_store (jsMax s.memory_retrieve (jsMax s.web_search (jsMax s.general_knowledge
    (jsMax s.command (jsMax s.question (jsMax s.greeting s.context))))))

/-- Final renormalization of `applyEntityBoosting`: if `max(scores) > 1`,
divide every score by that max. -/
def renormalize (s : Scores) : Scores :=
  let m := maxScore s
  if 1 < m then
    { memory_store := jsDiv s.memory_store m
      memory_retrieve := jsDiv s.memory_retrieve m
      web_search := jsDiv s.web_search m
      general_knowledge := jsDiv s.general_knowledge m
      command := jsDiv s.command m
      question := jsDiv s.question m
      greeting := jsDiv s.greeting m
      context := jsDiv s.context m }
  else s

/-- `applyEntityBoosting(scores, entities, message)` of
`DistilBertIntentParser`, rules in source order, returning the mutated map. -/
def applyEntityBoosting (scores : Scores) (entities : List Entity) (message : String) : Scores :=
  let lm := lowerStr message
  let hasQuestionWord := startsAny lm questionStartWords
  let hasQuestionMark := endsInQuestionMark message
  let isQuestion := hasQuestionWord || hasQuestionMark
  let hasStorageVerb := anyWordB lm storageVerbPhrases
  let hasDatetimeOrPerson := entities.any (fun e => e.type == "datetime" || e.type == "person")
  let s1 := applyIf (hasDatetimeOrPerson && (hasStorageVerb && !isQuestion))
    (scaleMemoryStore (mkRat 12 10)) scores
  let s2 := applyIf (isQuestion && !hasStorageVerb) (scaleMemoryStore (mkRat 3 10)) s1
  let s3 := applyIf (startsAny lm retrieveStartWords && hasDatetimeOrPerson)
    (scaleMemoryRetrieve (mkRat 115 100)) s2
  let s4 := applyIf (startsAny lm commandStartWords) (scaleCommand (mkRat 125 100)) s3
  let isFactualQuestion := anyWordB lm factualQuestionPhrases
  -- the if/else of the source on `isFactualQuestion` inside `if (hasQuestionWord)`,
  -- rendered as two applications with disjoint conditions
  let s5 := applyIf (hasQuestionWord && isFactualQuestion)
    (fun s => scaleQuestion (mkRat 115 100) (scaleWebSearch (mkRat 13 10) s))
    (applyIf (hasQuestionWord && !isFactualQuestion) (scaleQuestion (mkRat 12 10)) s4)
  let s6 := applyIf (anyWordB lm currentEventWords) (scaleWebSearch (mkRat 15 10)) s5
  let s7 := applyIf (anyWordB lm leadershipWords && (hasQuestionWord || hasQuestionMark))
    (scaleWebSearch (mkRat 14 10)) s6
  let s8 := applyIf (anyWordB lm priceWords) (scaleWebSearch (mkRat 145 100)) s7
  let s9 := applyIf (anyWordB lm weatherWords) (scaleWebSearch (mkRat 16 10)) s8
  let s10 := applyIf (anyWordB lm newsWords) (scaleWebSearch (mkRat 15 10)) s9
  let s11 := applyIf (anyWordB lm sportsWords) (scaleWebSearch (mkRat 14 10)) s10
  let s12 := applyIf (anyWordB lm codeRequestPhrases && anyWordB lm programmingWords)
    (fun s => scaleQuestion (mkRat 7 10) (scaleCommand (mkRat 5 10) (scaleWebSearch (mkRat 16 10) s))) s11
  let s13 := applyIf hasQuestionMark (fun s => scaleWebSearch (mkRat 105 100) (scaleQuestion (mkRat 11 10) s)) s12
  let s14 := applyIf (decide (wordCount message ≤ 5) && startsAny lm greetingStartWords)
    (scaleGreeting (mkRat 13 10)) s13
  renormalize s14

/-! ## Decision resolver (`getTopIntent`) -/

/-- Comparator of `sort((a, b) => b[1] - a[1])`: descending by score. -/
def scoreGE (a b : String × ℚ) : Prop := b.2 ≤ a.2

instance : DecidableRel scoreGE := fun a b => inferInstanceAs (Decidable (b.2 ≤ a.2))

instance : IsTotal (String × ℚ) scoreGE := ⟨fun a b => le_total b.2 a.2⟩

instance : IsTrans (String × ℚ) scoreGE := ⟨fun _ _ _ h1 h2 => le_trans h2 h1⟩

/-- `Object.entries(scores).sort((a, b) => b[1] - a[1])`; `insertionSort` with
a non-strict comparison is stable, exactly like the JavaScript sort. -/
def sortedEntries (s : Scores) : List (String × ℚ) :=
  List.insertionSort scoreGE (toEntries s)

/-- The static tie-break priority table; `intentPriority[name] || 0` defaults
every unlisted intent (and the listed zero entries) to 0. -/
def intentPriority (intent : String) : Nat :=
  match intent with
  | "web_search" => 5
  | "question" => 4
  | "memory_retrieve" => 3
  | "command" => 2
  | "context" => 1
  | _ => 0

/-- `getTopIntent(scores)` of `DistilBertIntentParser`.  The `[]` branch is
unreachable (the map always has eight entries); `rest.headD ("", 0)` renders
`sortedIntents[1]?.[1] || 0`, and the inner branch reading the second intent
is reached only when `rest` is nonempty (a singleton map cannot satisfy both
`topScore ≥ 0.15` and `|topScore - 0| < 0.1`). -/
def getTopIntent (s : Scores) : String :=
  match sortedEntries s with
  | [] => "question"
  | (topIntent, topScore) :: rest =>
    let second := rest.headD ("", 0)
    if topScore < mkRat 15 100 then "question"
    else if jsAbs (jsSub topScore second.2) < mkRat 1 10 then
      if intentPriority second.1 > intentPriority topIntent then second.1 else topIntent
    else topIntent

/-- The selection loop of `FastIntentParser.getTopIntent`. -/
def fastLoop (best : String × ℚ) : List (String × ℚ) → String × ℚ
  | [] => best
  | (intent, score) :: rest =>
    if score > best.2 then fastLoop (intent, score) rest else fastLoop best rest

/-- `FastIntentParser.getTopIntent(scores)`. -/
def fastGetTopIntent (entries : List (String × ℚ)) : String :=
  let best := fastLoop ("question", 0) entries
  if best.2 < mkRat 3 10 then "question" else best.1

/-! ## `DistilBertIntentParser.parse` pipeline -/

structure ChatMsg where
  role : String
  content : String
deriving DecidableEq

/-- `conversationHistory.slice().reverse().find(msg => msg.role === assistant)`. -/
def lastAssistant (hist : List ChatMsg) : Option ChatMsg :=
  hist.reverse.find? (fun m => m.role == "assistant")

def shortResponseWords : List String :=
  ["yes", "no", "ok", "sure", "yeah", "nope", "yep", "nah", "maybe", "perhaps",
   "definitely", "absolutely", "correct", "right", "wrong", "true", "false"]

/-- `message.trim().length < 15 && /^(yes|no|...)$/i.test(message.trim())`. -/
def isShortResponse (msg : String) : Bool :=
  decide ((jsTrim msg).length < 15) && shortResponseWords.contains (lowerStr (jsTrim msg))

/-- Step 0 of `parse`: the message actually embedded; conversation history is
consulted only for short acknowledgement messages. -/
def messageToClassify (msg : String) (hist : List ChatMsg) : String :=
  if decide (0 < hist.length) && isShortResponse msg then
    match lastAssistant hist with
    | some m => "[Context: " ++ strTake m.content 100 ++ "] " ++ msg
    | none => msg
  else msg

structure ParseResult where
  intent : String
  confidence : ℚ
  entities : List Entity
  scores : Scores
deriving DecidableEq

/-- Steps 1-5 of `DistilBertIntentParser.parse` with the external stages as
parameters: `classify` is the composition of the embedding generator and
`calculateIntentScores`, `extract` is `extractEntities`.  Only the original
`message` is passed to `extractEntities` and to `applyEntityBoosting`;
`messageToClassify` feeds the embedding step alone. -/
def parsePipeline (classify : String → Scores) (extract : String → List Entity)
    (msg : String) (hist : List ChatMsg) : ParseResult :=
  let raw := classify (messageToClassify msg hist)
  let entities := extract msg
  let boosted := applyEntityBoosting raw entities msg
  let intent := getTopIntent boosted
  { intent := intent
    confidence := scoreOf boosted intent
    entities := entities
    scores := boosted }

/-- `parse` with a fallible embedding stage: the `try`/`catch` of the source
rethrows (`throw error`), so an embedding failure propagates unchanged. -/
def parsePipelineE (classify : String → Except String Scores)
    (extract : String → List Entity) (msg : String) (hist : List ChatMsg) :
    Except String ParseResult :=
  match classify (messageToClassify msg hist) with
  | .error e => .error e
  | .ok raw =>
    let entities := extract msg
    let boosted := applyEntityBoosting raw entities msg
    let intent := getTopIntent boosted
    .ok { intent := intent
          confidence := scoreOf boosted intent
          entities := entities
          scores := boosted }

/-! ## `HybridIntentParser.parse` -/

structure HybridResult where
  intent : String
  confidence : ℚ
  parser : String
deriving DecidableEq

/-- `HybridIntentParser.parse`: the semantic path may throw (its embedding
call included); the `catch` swallows the error and answers with
`parseWithFallback` (the Bayes classifier path, modelled as `fallback`). -/
def hybridParse (semanticReady : Bool) (semantic : String → Except String HybridResult)
    (fallback : String → HybridResult) (msg : String) : HybridResult :=
  if semanticReady then
    match semantic msg with
    | .ok r => r
    | .error _ => fallback msg
  else fallback msg

/-! ## `IntentParserFactory` -/

inductive PKind where
  | distilbert
  | hybrid
  | fast
  | original
deriving DecidableEq

structure FactoryConfig where
  useDistilBert : Bool
  useHybrid : Bool
  useFast : Bool
  useOriginal : Bool
  defaultParser : String
deriving DecidableEq

inductive FactoryError where
  | disabled
  | initFailed
  | noParsers
deriving DecidableEq

def parserEnabled (cfg : FactoryConfig) : PKind → Bool
  | .distilbert => cfg.useDistilBert
  | .hybrid => cfg.useHybrid
  | .fast => cfg.useFast
  | .original => cfg.useOriginal

/-- `getDistilBertParser` / `getHybridParser` / `getFastParser` /
`getOriginalParser`: throw when disabled, else construct and initialize the
instance; `ok k` says whether that initialization succeeds. -/
def getNamedParser (cfg : FactoryConfig) (ok : PKind → Bool) (k : PKind) :
    Except FactoryError PKind :=
  if !parserEnabled cfg k then .error .disabled
  else if ok k then .ok k
  else .error .initFailed

/-- `getFallbackParser`: try `getFastParser`; on any failure construct an
emergency `FastIntentParser` directly (ignoring the enabled flag), whose
initialization failure propagates. -/
def getFallbackParser (cfg : FactoryConfig) (ok : PKind → Bool) :
    Except FactoryError PKind :=
  match getNamedParser cfg ok .fast with
  | .ok v => .ok v
  | .error _ => if ok .fast then .ok .fast else .error .initFailed

/-- The named branch of `getParser`, including its `catch`: a failing
requested implementation is replaced by `getFallbackParser()`. -/
def getKnownParser (cfg : FactoryConfig) (ok : PKind → Bool) (k : PKind) :
    Except FactoryError PKind :=
  match getNamedParser cfg ok k with
  | .ok v => .ok v
  | .error _ => getFallbackParser cfg ok

/-- `getDefaultParser`: try `getParser(name)` for
`distilbert, hybrid, fast, original` in order (each call is the
named branch above, with its own fallback), else throw `No parsers available`. -/
def getDefaultParser (cfg : FactoryConfig) (ok : PKind → Bool) :
    Except FactoryError PKind :=
  match getKnownParser cfg ok .distilbert with
  | .ok v => .ok v
  | .error _ =>
    match getKnownParser cfg ok .hybrid with
    | .ok v => .ok v
    | .error _ =>
      match getKnownParser cfg ok .fast with
      | .ok v => .ok v
      | .error _ =>
        match getKnownParser cfg ok .original with
        | .ok v => .ok v
        | .error _ => .error .noParsers

/-- The `switch (name.toLowerCase())` of `getParser`. -/
def parseParserName (name : String) : Option PKind :=
  match lowerStr name with
  | "distilbert" => some .distilbert
  | "fast" => some .fast
  | "hybrid" => some .hybrid
  | "original" => some .original
  | _ => none

def kindName : PKind → String
  | .distilbert => "distilbert"
  | .hybrid => "hybrid"
  | .fast => "fast"
  | .original => "original"

/-- `IntentParserFactory.getParser(parserName)`: unknown names go to
`getDefaultParser`, and the surrounding `catch` turns its failure into
`getFallbackParser()`. -/
def getParser (cfg : FactoryConfig) (ok : PKind → Bool) (parserName : Option String) :
    Except FactoryError PKind :=
  let name := parserName.getD cfg.defaultParser
  match parseParserName name with
  | some k => getKnownParser cfg ok k
  | none =>
    match getDefaultParser cfg ok with
    | .ok v => .ok v
    | .error _ => getFallbackParser cfg ok

/-! ## Entity post-processing of `extractEntities` (merge pass, then sort) -/

/-- `/[.!?]\s*$/.test(slice)`. -/
def endsSentencePunct (s : String) : Bool :=
  match s.data.reverse.dropWhile Char.isWhitespace with
  | [] => false
  | c :: _ => c = '.' || c = '!' || c = '?'

/-- Trigger of the merge step: same `entity_type`, gap of zero to two
characters, and no sentence-ending punctuation (`/[.!?]\s*$/`) in between. -/
def mergeCond (message : String) (cur nxt : Entity) : Bool :=
  let gap := nxt.start - cur.endPos
  cur.entity_type == nxt.entity_type && decide (0 ≤ gap) && decide (gap ≤ 2) &&
    !endsSentencePunct (strSlice message cur.endPos nxt.start)

/-- The extended entity built by the merge step: `cur` with the merged text
span and the maximum of the two confidences. -/
def mergedEnt (message : String) (cur nxt : Entity) : Entity :=
  { cur with
    value := strSlice message cur.start nxt.endPos
    endPos := nxt.endPos
    confidence := jsMax cur.confidence nxt.confidence }

/-- The merge loop over the extraction-ordered entity list. -/
def mergeLoop (message : String) (cur : Entity) : List Entity → List Entity
  | [] => [cur]
  | nxt :: rest =>
    if mergeCond message cur nxt then mergeLoop message (mergedEnt message cur nxt) rest
    else cur :: mergeLoop message nxt rest

/-- Step 7 of `extractEntities` (`if (entities.length > 1) ...`; a list of at
most one entity is returned unchanged, which the loop also does). -/
def mergeAdjacent (message : String) : List Entity → List Entity
  | [] => []
  | c :: rest => mergeLoop message c rest

def startLE (a b : Entity) : Prop := a.start ≤ b.start

instance : DecidableRel startLE := fun a b => inferInstanceAs (Decidable (a.start ≤ b.start))

instance : IsTotal Entity startLE := ⟨fun a b => le_total a.start b.start⟩

instance : IsTrans Entity startLE := ⟨fun _ _ _ h1 h2 => le_trans h1 h2⟩

/-- Step 8 of `extractEntities`: `entities.sort((a, b) => a.start - b.start)`
(stable, ascending by start). -/
def sortByStart (l : List Entity) : List Entity := List.insertionSort startLE l

/-- Steps 7-8 of `extractEntities` applied to the raw stage output (the raw
list itself comes from the external compromise/regex stages). -/
def extractEntitiesPost (message : String) (raw : List Entity) : List Entity :=
  sortByStart (mergeAdjacent message raw)

/-! ## Similarity scorer (`MathUtils.cosineSimilarity`,
`calculateIntentScores`) over `ℝ` -/

/-- The accumulation loop of `MathUtils.cosineSimilarity`:
`(dotProduct, normA, normB)` after folding over the paired coordinates. -/
def cosineAccum (ab : List (ℝ × ℝ)) : ℝ × ℝ × ℝ :=
  ab.foldl (fun acc p => (acc.1 + p.1 * p.2, acc.2.1 + p.1 * p.1, acc.2.2 + p.2 * p.2))
    (0, 0, 0)

/-- `MathUtils.cosineSimilarity(vecA, vecB)`; `none` models the thrown
`Vectors must have the same length`. -/
noncomputable def cosineSimilarity (a b : List ℝ) : Option ℝ :=
  if a.length ≠ b.length then none
  else
    let acc := cosineAccum (a.zip b)
    let denom := Real.sqrt acc.2.1 * Real.sqrt acc.2.2
    some (if denom = 0 then 0 else acc.1 / denom)

/-- Modelled from the spec: the dot product of two vectors. -/
def specDot (a b : List ℝ) : ℝ := ((a.zip b).map (fun p => p.1 * p.2)).sum

/-- Modelled from the spec: the Euclidean norm. -/
noncomputable def specNorm (a : List ℝ) : ℝ := Real.sqrt ((a.map (fun x => x * x)).sum)

/-- Modelled from the spec: dot product over the product of norms, and 0 when
either vector has zero norm. -/
noncomputable def specCosine (a b : List ℝ) : ℝ :=
  if specNorm a = 0 ∨ specNorm b = 0 then 0 else specDot a b / (specNorm a * specNorm b)

/-- Per-intent body of `calculateIntentScores`: map `cosineSimilarity` over
the seed embeddings of the intent and take `Math.max` of the results.  `none`
models a thrown length mismatch; no intent of the seed corpus has an empty
seed list (for which `Math.max()` would be `-Infinity`). -/
noncomputable def intentScore (msg : List ℝ) (seeds : List (List ℝ)) : Option ℝ :=
  match seeds.mapM (cosineSimilarity msg) with
  | none => none
  | some [] => none
  | some (x :: xs) => some (xs.foldl max x)

/-- Modelled from the spec: the maximum similarity across a nonempty seed
list. -/
noncomputable def specIntentScore (msg v : List ℝ) (vs : List (List ℝ)) : ℝ :=
  (vs.map (specCosine msg)).foldl max (specCosine msg v)

/-! ## Score-bound lemmas for the booster -/

def NonnegScores (s : Scores) : Prop :=
  0 ≤ s.memory_store ∧ 0 ≤ s.memory_retrieve ∧ 0 ≤ s.web_search ∧
  0 ≤ s.general_knowledge ∧ 0 ≤ s.command ∧ 0 ≤ s.question ∧
  0 ≤ s.greeting ∧ 0 ≤ s.context

def UnitScores (s : Scores) : Prop :=
  (0 ≤ s.memory_store ∧ s.memory_store ≤ 1) ∧
  (0 ≤ s.memory_retrieve ∧ s.memory_retrieve ≤ 1) ∧
  (0 ≤ s.web_search ∧ s.web_search ≤ 1) ∧
  (0 ≤ s.general_knowledge ∧ s.general_knowledge ≤ 1) ∧
  (0 ≤ s.command ∧ s.command ≤ 1) ∧
  (0 ≤ s.question ∧ s.question ≤ 1) ∧
  (0 ≤ s.greeting ∧ s.greeting ≤ 1) ∧
  (0 ≤ s.context ∧ s.context ≤ 1)

instance (s : Scores) : Decidable (NonnegScores s) := by unfold NonnegScores; infer_instance

instance (s : Scores) : Decidable (UnitScores s) := by unfold UnitScores; infer_instance

lemma nonneg_scaleMemoryStore (k : ℚ) (hk : 0 ≤ k) {s : Scores} (hs : NonnegScores s) :
    NonnegScores (scaleMemoryStore k s) := by
  obtain ⟨h1, h2, h3, h4, h5, h6, h7, h8⟩ := hs
  refine ⟨?_, h2, h3, h4, h5, h6, h7, h8⟩
  show 0 ≤ jsMul s.memory_store k
  rw [jsMul_eq]
  exact mul_nonneg h1 hk

lemma nonneg_scaleMemoryRetrieve (k : ℚ) (hk : 0 ≤ k) {s : Scores} (hs : NonnegScores s) :
    NonnegScores (scaleMemoryRetrieve k s) := by
  obtain ⟨h1, h2, h3, h4, h5, h6, h7, h8⟩ := hs
  refine ⟨h1, ?_, h3, h4, h5, h6, h7, h8⟩
  show 0 ≤ jsMul s.memory_retrieve k
  rw [jsMul_eq]
  exact mul_nonneg h2 hk

lemma nonneg_scaleWebSearch (k : ℚ) (hk : 0 ≤ k) {s : Scores} (hs : NonnegScores s) :
    NonnegScores (scaleWebSearch k s) := by
  obtain ⟨h1, h2, h3, h4, h5, h6, h7, h8⟩ := hs
  refine ⟨h1, h2, ?_, h4, h5, h6, h7, h8⟩
  show 0 ≤ jsMul s.web_search k
  rw [jsMul_eq]
  exact mul_nonneg h3 hk

lemma nonneg_scaleCommand (k : ℚ) (hk : 0 ≤ k) {s : Scores} (hs : NonnegScores s) :
    NonnegScores (scaleCommand k s) := by
  obtain ⟨h1, h2, h3, h4, h5, h6, h7, h8⟩ := hs
  refine ⟨h1, h2, h3, h4, ?_, h6, h7, h8⟩
  show 0 ≤ jsMul s.command k
  rw [jsMul_eq]
  exact mul_nonneg h5 hk

lemma nonneg_scaleQuestion (k : ℚ) (hk : 0 ≤ k) {s : Scores} (hs : NonnegScores s) :
    NonnegScores (scaleQuestion k s) := by
  obtain ⟨h1, h2, h3, h4, h5, h6, h7, h8⟩ := hs
  refine ⟨h1, h2, h3, h4, h5, ?_, h7, h8⟩
  show 0 ≤ jsMul s.question k
  rw [jsMul_eq]
  exact mul_nonneg h6 hk

lemma nonneg_scaleGreeting (k : ℚ) (hk : 0 ≤ k) {s : Scores} (hs : NonnegScores s) :
    NonnegScores (scaleGreeting k s) := by
  obtain ⟨h1, h2, h3, h4, h5, h6, h7, h8⟩ := hs
  refine ⟨h1, h2, h3, h4, h5, h6, ?_, h8⟩
  show 0 ≤ jsMul s.greeting k
  rw [jsMul_eq]
  exact mul_nonneg h7 hk

lemma nonneg_applyIf (b : Bool) (f : Scores → Scores) (s : Scores)
    (hf : NonnegScores s → NonnegScores (f s)) (hs : NonnegScores s) :
    NonnegScores (applyIf b f s) := by
  unfold applyIf
  cases b
  · simpa using hs
  · simpa using hf hs

lemma all_le_maxScore (s : Scores) :
    s.memory_store ≤ maxScore s ∧ s.memory_retrieve ≤ maxScore s ∧
    s.web_search ≤ maxScore s ∧ s.general_knowledge ≤ maxScore s ∧
    s.command ≤ maxScore s ∧ s.question ≤ maxScore s ∧
    s.greeting ≤ maxScore s ∧ s.context ≤ maxScore s := by
  unfold maxScore
  simp only [jsMax_eq]
  refine ⟨le_max_left _ _, ?_, ?_, ?_, ?_, ?_, ?_, ?_⟩
  · exact le_max_of_le_right (le_max_left _ _)
  · exact le_max_of_le_right (le_max_of_le_right (le_max_left _ _))
  · exact le_max_of_le_right (le_max_of_le_right (le_max_of_le_right (le_max_left _ _)))
  · exact le_max_of_le_right (le_max_of_le_right (le_max_of_le_right
      (le_max_of_le_right (le_max_left _ _))))
  · exact le_max_of_le_right (le_max_of_le_right (le_max_of_le_right
      (le_max_of_le_right (le_max_of_le_right (le_max_left _ _)))))
  · exact le_max_of_le_right (le_max_of_le_right (le_max_of_le_right
      (le_max_of_le_right (le_max_of_le_right (le_max_of_le_right (le_max_left _ _))))))
  · exact le_max_of_le_right (le_max_of_le_right (le_max_of_le_right
      (le_max_of_le_right (le_max_of_le_right (le_max_of_le_right (le_max_right _ _))))))

lemma jsDiv_unit {x m : ℚ} (hx : 0 ≤ x) (hxm : x ≤ m) (hm : 1 < m) :
    0 ≤ jsDiv x m ∧ jsDiv x m ≤ 1 := by
  rw [jsDiv_eq]
  have hm0 : 0 < m := lt_trans one_pos hm
  exact ⟨div_nonneg hx hm0.le, (div_le_one hm0).mpr hxm⟩

lemma unit_renormalize (s : Scores) (h : NonnegScores s) : UnitScores (renormalize s) := by
  obtain ⟨h1, h2, h3, h4, h5, h6, h7, h8⟩ := h
  obtain ⟨l1, l2, l3, l4, l5, l6, l7, l8⟩ := all_le_maxScore s
  simp only [renormalize]
  rcases lt_or_le 1 (maxScore s) with hm | hm
  · rw [if_pos hm]
    exact ⟨jsDiv_unit h1 l1 hm, jsDiv_unit h2 l2 hm, jsDiv_unit h3 l3 hm,
           jsDiv_unit h4 l4 hm, jsDiv_unit h5 l5 hm, jsDiv_unit h6 l6 hm,
           jsDiv_unit h7 l7 hm, jsDiv_unit h8 l8 hm⟩
  · rw [if_neg (not_lt.mpr hm)]
    exact ⟨⟨h1, le_trans l1 hm⟩, ⟨h2, le_trans l2 hm⟩, ⟨h3, le_trans l3 hm⟩,
           ⟨h4, le_trans l4 hm⟩, ⟨h5, le_trans l5 hm⟩, ⟨h6, le_trans l6 hm⟩,
           ⟨h7, le_trans l7 hm⟩, ⟨h8, le_trans l8 hm⟩⟩

/-- C1: the claim fails in general (negative cosine similarities pass through
the booster and its max-only renormalization unclipped), but holds whenever
every raw score entering `applyEntityBoosting` is nonnegative: then every
returned score lies in `[0, 1]`. -/
theorem c1_boost_unit_of_nonneg (raw : Scores) (entities : List Entity) (message : String)
    (h : NonnegScores raw) : UnitScores (applyEntityBoosting raw entities message) := by
  simp only [applyEntityBoosting]
  apply unit_renormalize
  apply nonneg_applyIf
  · exact fun hs => nonneg_scaleGreeting _ (by norm_num) hs
  apply nonneg_applyIf
  · exact fun hs => nonneg_scaleWebSearch _ (by norm_num) (nonneg_scaleQuestion _ (by norm_num) hs)
  apply nonneg_applyIf
  · exact fun hs => nonneg_scaleQuestion _ (by norm_num)
      (nonneg_scaleCommand _ (by norm_num) (nonneg_scaleWebSearch _ (by norm_num) hs))
  apply nonneg_applyIf
  · exact fun hs => nonneg_scaleWebSearch _ (by norm_num) hs
  apply nonneg_applyIf
  · exact fun hs => nonneg_scaleWebSearch _ (by norm_num) hs
  apply nonneg_applyIf
  · exact fun hs => nonneg_scaleWebSearch _ (by norm_num) hs
  apply nonneg_applyIf
  · exact fun hs => nonneg_scaleWebSearch _ (by norm_num) hs
  apply nonneg_applyIf
  · exact fun hs => nonneg_scaleWebSearch _ (by norm_num) hs
  apply nonneg_applyIf
  · exact fun hs => nonneg_scaleWebSearch _ (by norm_num) hs
  apply nonneg_applyIf
  · exact fun hs => nonneg_scaleQuestion _ (by norm_num) (nonneg_scaleWebSearch _ (by norm_num) hs)
  apply nonneg_applyIf
  · exact fun hs => nonneg_scaleQuestion _ (by norm_num) hs
  apply nonneg_applyIf
  · exact fun hs => nonneg_scaleCommand _ (by norm_num) hs
  apply nonneg_applyIf
  · exact fun hs => nonneg_scaleMemoryRetrieve _ (by norm_num) hs
  apply nonneg_applyIf
  · exact fun hs => nonneg_scaleMemoryStore _ (by norm_num) hs
  apply nonneg_applyIf
  · exact fun hs => nonneg_scaleMemoryStore _ (by norm_num) hs
  exact h

def halfScores : Scores :=
  ⟨mkRat 1 2, mkRat 1 2, mkRat 1 2, mkRat 1 2, mkRat 1 2, mkRat 1 2, mkRat 1 2, mkRat 1 2⟩

theorem c1_witness :
    NonnegScores halfScores ∧ UnitScores (applyEntityBoosting halfScores [] "zzz") :=
  ⟨by decide, c1_boost_unit_of_nonneg halfScores [] "zzz" (by decide)⟩

/-! ## Resolver lemmas -/

lemma toEntries_map_fst (s : Scores) : (toEntries s).map Prod.fst = intentNames := rfl

lemma keys_nodup (s : Scores) : ((toEntries s).map Prod.fst).Nodup := by
  rw [toEntries_map_fst]
  decide

lemma entries_key_inj (s : Scores) : ∀ ⦃x⦄, x ∈ toEntries s → ∀ ⦃y⦄, y ∈ toEntries s →
    x.1 = y.1 → x = y :=
  List.inj_on_of_nodup_map (keys_nodup s)

lemma sortedEntries_perm (s : Scores) : List.Perm (sortedEntries s) (toEntries s) :=
  List.perm_insertionSort _ _

lemma sortedEntries_sorted (s : Scores) : (sortedEntries s).Sorted scoreGE :=
  List.sorted_insertionSort _ _

lemma mem_entries_name {s : Scores} {p : String × ℚ} (hp : p ∈ toEntries s) :
    p.1 ∈ intentNames := by
  rw [← toEntries_map_fst s]
  exact List.mem_map_of_mem Prod.fst hp

/-- C2 (amended): if every score in the final (post-boost, post-renormalize)
map is below the 0.15 floor, the resolver returns the default `question`. -/
theorem c2_floor_default_question (s : Scores)
    (h : ∀ p ∈ toEntries s, p.2 < mkRat 15 100) : getTopIntent s = "question" := by
  cases hL : sortedEntries s with
  | nil => unfold getTopIntent; rw [hL]
  | cons a rest =>
    obtain ⟨an, av⟩ := a
    have ha : (an, av) ∈ toEntries s := by
      have hm : (an, av) ∈ sortedEntries s := by
        rw [hL]; exact List.mem_cons_self _ _
      exact (sortedEntries_perm s).mem_iff.mp hm
    unfold getTopIntent
    rw [hL]
    dsimp only
    rw [if_pos (h _ ha)]

def lowScores : Scores :=
  ⟨mkRat 1 100, mkRat 1 100, mkRat 1 100, mkRat 1 100,
   mkRat 1 100, mkRat 1 100, mkRat 1 100, mkRat 1 100⟩

theorem c2_witness : getTopIntent lowScores = "question" :=
  c2_floor_default_question lowScores (by decide)

/-- The raw similarity map of the C2 counterexample: every raw score is below
0.05 (`web_search` is 0.049, the rest 0.04). -/
def rawC2 : Scores :=
  ⟨mkRat 1 25, mkRat 1 25, mkRat 49 1000, mkRat 1 25,
   mkRat 1 25, mkRat 1 25, mkRat 1 25, mkRat 1 25⟩

def msgC2 : String := "what is the weather news today?"

/-- C2 counterexample: all raw scores are below 0.05, yet the compound
heuristic boosts (factual-question 1.3, current-event 1.5, weather 1.6,
news 1.5, question-mark 1.05) lift `web_search` to 0.240786, above the 0.15
floor, so the resolved intent is `web_search`, not the default `question`. -/
theorem c2_counterexample :
    (∀ p ∈ toEntries rawC2, p.2 < mkRat 1 20) ∧
    getTopIntent (applyEntityBoosting rawC2 [] msgC2) = "web_search" :=
  ⟨by decide, by decide⟩

/-- With a strictly greatest entry `p` and a strictly second entry `q` (keyed
comparisons), the stable descending sort starts exactly `p :: q :: _`. -/
lemma sortedEntries_top_two (s : Scores) (p q : String × ℚ)
    (hp : p ∈ toEntries s) (hq : q ∈ toEntries s) (hpq : p.1 ≠ q.1)
    (hmax : ∀ r ∈ toEntries s, r.1 ≠ p.1 → r.2 < p.2)
    (hsec : ∀ r ∈ toEntries s, r.1 ≠ p.1 → r.1 ≠ q.1 → r.2 < q.2) :
    ∃ rest, sortedEntries s = p :: q :: rest := by
  have hperm := sortedEntries_perm s
  have hsorted := sortedEntries_sorted s
  have hp' : p ∈ sortedEntries s := hperm.mem_iff.mpr hp
  have hq' : q ∈ sortedEntries s := hperm.mem_iff.mpr hq
  have hne : p ≠ q := fun h => hpq (by rw [h])
  cases hL : sortedEntries s with
  | nil =>
    rw [hL] at hp'
    exact absurd hp' (List.not_mem_nil p)
  | cons a t =>
    cases t with
    | nil =>
      rw [hL] at hp' hq'
      simp only [List.mem_singleton] at hp' hq'
      exact absurd (hp'.trans hq'.symm) hne
    | cons b t2 =>
      rw [hL] at hp' hq' hsorted
      have hamem : a ∈ toEntries s := hperm.mem_iff.mp (by rw [hL]; exact List.mem_cons_self _ _)
      have ha : a = p := by
        by_contra hap
        have haK : a.1 ≠ p.1 := fun hk => hap (entries_key_inj s hamem hp hk)
        have halt : a.2 < p.2 := hmax a hamem haK
        have hptail : p ∈ b :: t2 := by
          rcases List.mem_cons.mp hp' with h | h
          · exact absurd h.symm hap
          · exact h
        have hge : scoreGE a p := (List.sorted_cons.mp hsorted).1 p hptail
        exact absurd hge (not_le.mpr halt)
      subst ha
      have hnodup : ((a :: b :: t2).map Prod.fst).Nodup := by
        have hpm : List.Perm ((sortedEntries s).map Prod.fst) ((toEntries s).map Prod.fst) :=
          hperm.map Prod.fst
        rw [hL] at hpm
        exact hpm.nodup_iff.mpr (keys_nodup s)
      have hbK_a : a.1 ≠ b.1 := by
        intro hk
        have hnot : a.1 ∉ (b :: t2).map Prod.fst := (List.nodup_cons.mp hnodup).1
        exact hnot (by rw [hk]; exact List.mem_cons_self _ _)
      have hbmem : b ∈ toEntries s := hperm.mem_iff.mp
        (by rw [hL]; exact List.mem_cons_of_mem _ (List.mem_cons_self _ _))
      have hb : b = q := by
        by_contra hbq
        have hbK_q : b.1 ≠ q.1 := fun hk => hbq (entries_key_inj s hbmem hq hk)
        have hblt : b.2 < q.2 := hsec b hbmem (fun hk => hbK_a hk.symm) hbK_q
        have hq_t2 : q ∈ t2 := by
          rcases List.mem_cons.mp hq' with h | h
          · exact absurd h.symm hne
          · rcases List.mem_cons.mp h with h2 | h2
            · exact absurd h2.symm hbq
            · exact h2
        have hge : scoreGE b q :=
          (List.sorted_cons.mp (List.sorted_cons.mp hsorted).2).1 q hq_t2
        exact absurd hge (not_le.mpr hblt)
      subst hb
      exact ⟨t2, rfl⟩

/-- C3: with a strictly top entry `p` at or above the 0.15 floor and a
strictly second entry `q`, the resolver returns the intent of `q` exactly when
the gap is below the 0.10 epsilon and the priority of `q` is strictly higher,
and the intent of `p` otherwise. -/
theorem c3_priority_tiebreak (s : Scores) (p q : String × ℚ)
    (hp : p ∈ toEntries s) (hq : q ∈ toEntries s) (hpq : p.1 ≠ q.1)
    (hmax : ∀ r ∈ toEntries s, r.1 ≠ p.1 → r.2 < p.2)
    (hsec : ∀ r ∈ toEntries s, r.1 ≠ p.1 → r.1 ≠ q.1 → r.2 < q.2)
    (hfloor : mkRat 15 100 ≤ p.2) :
    getTopIntent s =
      if jsSub p.2 q.2 < mkRat 1 10 ∧ intentPriority p.1 < intentPriority q.1
      then q.1 else p.1 := by
  obtain ⟨rest, hL⟩ := sortedEntries_top_two s p q hp hq hpq hmax hsec
  have hqlt : q.2 < p.2 := hmax q hq (Ne.symm hpq)
  obtain ⟨pn, pv⟩ := p
  obtain ⟨qn, qv⟩ := q
  unfold getTopIntent
  rw [hL]
  dsimp only [List.headD]
  rw [if_neg (not_lt.mpr hfloor)]
  have habs : jsAbs (jsSub pv qv) = jsSub pv qv := by
    rw [jsAbs_eq, jsSub_eq]
    exact abs_of_nonneg (sub_nonneg.mpr hqlt.le)
  rw [habs]
  by_cases hgap : jsSub pv qv < mkRat 1 10
  · rw [if_pos hgap]
    by_cases hprio : intentPriority pn < intentPriority qn
    · rw [if_pos hprio, if_pos ⟨hgap, hprio⟩]
    · rw [if_neg hprio, if_neg (fun hc => hprio hc.2)]
  · rw [if_neg hgap, if_neg (fun hc => hgap hc.1)]

/-- Scores of the C3 witness: `command` strictly top at 0.8, `web_search`
strictly second at 0.75. -/
def tieScores : Scores :=
  ⟨mkRat 1 100, mkRat 2 100, mkRat 75 100, mkRat 3 100,
   mkRat 8 10, mkRat 4 100, mkRat 5 100, mkRat 6 100⟩

theorem c3_witness : getTopIntent tieScores = "web_search" := by
  have h := c3_priority_tiebreak tieScores ("command", mkRat 8 10) ("web_search", mkRat 75 100)
    (by decide) (by decide) (by decide) (by decide) (by decide) (by decide)
  rw [h]
  decide

lemma fastLoop_fst (l : List (String × ℚ)) : ∀ best : String × ℚ,
    (fastLoop best l).1 = best.1 ∨ (fastLoop best l).1 ∈ l.map Prod.fst := by
  induction l with
  | nil => intro best; left; rfl
  | cons p t ih =>
    intro best
    obtain ⟨pn, pv⟩ := p
    unfold fastLoop
    by_cases hc : pv > best.2
    · rw [if_pos hc]
      rcases ih (pn, pv) with h | h
      · right; rw [h]; exact List.mem_cons_self _ _
      · right; exact List.mem_cons_of_mem _ h
    · rw [if_neg hc]
      rcases ih best with h | h
      · left; exact h
      · right; exact List.mem_cons_of_mem _ h

/-- C8: `DistilBertIntentParser.getTopIntent` only returns keys of the
eight-intent score map (`question`, the hard-coded default, being one of
them), and `FastIntentParser.getTopIntent` returns a key of its score map
whenever `question` is one of its keys (which holds for the configured map of
the fast parser). -/
theorem c8_resolver_returns_known_intent :
    (∀ s : Scores, getTopIntent s ∈ intentNames ∧ "question" ∈ intentNames) ∧
    (∀ entries : List (String × ℚ), "question" ∈ entries.map Prod.fst →
      fastGetTopIntent entries ∈ entries.map Prod.fst) := by
  constructor
  · intro s
    refine ⟨?_, by decide⟩
    cases hL : sortedEntries s with
    | nil => unfold getTopIntent; rw [hL]; decide
    | cons a rest =>
      obtain ⟨an, av⟩ := a
      have haN : an ∈ intentNames := mem_entries_name
        ((sortedEntries_perm s).mem_iff.mp (by rw [hL]; exact List.mem_cons_self _ _))
      unfold getTopIntent
      rw [hL]
      cases rest with
      | nil =>
        dsimp only [List.headD]
        by_cases h1 : av < mkRat 15 100
        · rw [if_pos h1]; decide
        · rw [if_neg h1]
          by_cases h2 : jsAbs (jsSub av 0) < mkRat 1 10
          · exfalso
            rw [jsAbs_eq, jsSub_eq, sub_zero] at h2
            exact h1 (lt_trans (lt_of_le_of_lt (le_abs_self av) h2) (by decide))
          · rw [if_neg h2]; exact haN
      | cons b rest2 =>
        obtain ⟨bn, bv⟩ := b
        have hbN : bn ∈ intentNames := mem_entries_name
          ((sortedEntries_perm s).mem_iff.mp
            (by rw [hL]; exact List.mem_cons_of_mem _ (List.mem_cons_self _ _)))
        dsimp only [List.headD]
        by_cases h1 : av < mkRat 15 100
        · rw [if_pos h1]; decide
        · rw [if_neg h1]
          by_cases h2 : jsAbs (jsSub av bv) < mkRat 1 10
          · rw [if_pos h2]
            by_cases h3 : intentPriority bn > intentPriority an
            · rw [if_pos h3]; exact hbN
            · rw [if_neg h3]; exact haN
          · rw [if_neg h2]; exact haN
  · intro entries hq
    unfold fastGetTopIntent
    by_cases h1 : (fastLoop ("question", 0) entries).2 < mkRat 3 10
    · rw [if_pos h1]; exact hq
    · rw [if_neg h1]
      rcases fastLoop_fst entries ("question", 0) with h | h
      · rw [h]; exact hq
      · exact h

theorem c8_witness :
    getTopIntent tieScores ∈ intentNames ∧
    fastGetTopIntent [("question", mkRat 1 2)] ∈ [("question", mkRat 1 2)].map Prod.fst :=
  ⟨(c8_resolver_returns_known_intent.1 tieScores).1,
   c8_resolver_returns_known_intent.2 [("question", mkRat 1 2)] (by decide)⟩

/-- Raw scores of the C9 demonstration: `command` top at 0.8, `web_search`
second at 0.75 (gap 0.05 below the epsilon, priority 5 over 2), so the
tie-break selects `web_search` and the reported confidence is 0.75, not 0.8. -/
def rawC9 : Scores :=
  ⟨mkRat 1 100, mkRat 1 100, mkRat 75 100, mkRat 1 100,
   mkRat 8 10, mkRat 1 100, mkRat 1 100, mkRat 1 100⟩

set_option maxHeartbeats 2000000 in
/-- C9: the confidence of every `parse` result equals the entry of the
selected intent in the returned score map (`confidence = scores[intent]`); in the
concrete tie-broken run the selected intent is `web_search` with confidence
0.75 while the maximal score 0.8 belongs to `command`. -/
theorem c9_confidence_matches_selected_score :
    (∀ (classify : String → Scores) (extract : String → List Entity) (msg : String)
        (hist : List ChatMsg),
        (parsePipeline classify extract msg hist).confidence =
          scoreOf (parsePipeline classify extract msg hist).scores
            (parsePipeline classify extract msg hist).intent) ∧
    ((parsePipeline (fun _ => rawC9) (fun _ => []) "zzz" []).intent = "web_search" ∧
     (parsePipeline (fun _ => rawC9) (fun _ => []) "zzz" []).confidence = mkRat 75 100 ∧
     scoreOf (parsePipeline (fun _ => rawC9) (fun _ => []) "zzz" []).scores "command" =
       mkRat 8 10) :=
  ⟨fun _ _ _ _ => rfl, by decide, by decide, by decide⟩

/-- C7: conversation history can influence a `parse` run only through the
text handed to the embedding step: (1) if the embedding stage sees the same
input under two histories, the whole result is identical; (2) for any message
that is not a short acknowledgement the embedded text is the original message
itself, whatever the history; (3) the booster runs on the raw scores, the
entities of the original message, and the original message text; (4) the
returned entities are those of the original message. -/
theorem c7_history_noninterference (classify : String → Scores)
    (extract : String → List Entity) (msg : String) (h1 h2 : List ChatMsg) :
    (classify (messageToClassify msg h1) = classify (messageToClassify msg h2) →
      parsePipeline classify extract msg h1 = parsePipeline classify extract msg h2) ∧
    (isShortResponse msg = false → messageToClassify msg h1 = msg) ∧
    (parsePipeline classify extract msg h1).scores =
      applyEntityBoosting (classify (messageToClassify msg h1)) (extract msg) msg ∧
    (parsePipeline classify extract msg h1).entities = extract msg := by
  refine ⟨?_, ?_, rfl, rfl⟩
  · intro he
    unfold parsePipeline
    rw [he]
  · intro hs
    unfold messageToClassify
    rw [hs]
    simp

def histC7 : List ChatMsg := [⟨"assistant", "hi"⟩]

theorem c7_witness :
    parsePipeline (fun _ => rawC9) (fun _ => []) "hello there" [] =
      parsePipeline (fun _ => rawC9) (fun _ => []) "hello there" histC7 ∧
    messageToClassify "hello there" histC7 = "hello there" :=
  ⟨(c7_history_noninterference (fun _ => rawC9) (fun _ => []) "hello there" [] histC7).1 rfl,
   (c7_history_noninterference (fun _ => rawC9) (fun _ => []) "hello there" histC7 []).2.1
     (by decide)⟩

/-- C4 (amended): `DistilBertIntentParser.parse` propagates an embedding-stage
error unchanged to its caller (there is no dedicated `EmbeddingFailure` type;
the original error is rethrown), and the score map of every successful result
is the boosted image of scores actually produced by the embedding stage —
never a silently substituted map.  (`HybridIntentParser.parse`, by contrast, catches
such errors: see the counterexample.) -/
theorem c4_embedding_error_propagation :
    (∀ (classify : String → Except String Scores) (extract : String → List Entity)
        (msg : String) (hist : List ChatMsg) (e : String),
        classify (messageToClassify msg hist) = .error e →
        parsePipelineE classify extract msg hist = .error e) ∧
    (∀ (classify : String → Except String Scores) (extract : String → List Entity)
        (msg : String) (hist : List ChatMsg),
        parsePipelineE classify extract msg hist =
          (classify (messageToClassify msg hist)).map (fun raw =>
            let entities := extract msg
            let boosted := applyEntityBoosting raw entities msg
            { intent := getTopIntent boosted
              confidence := scoreOf boosted (getTopIntent boosted)
              entities := entities
              scores := boosted })) := by
  constructor
  · intro classify extract msg hist e he
    unfold parsePipelineE
    rw [he]
  · intro classify extract msg hist
    unfold parsePipelineE
    cases classify (messageToClassify msg hist) <;> rfl

theorem c4_witness :
    parsePipelineE (fun _ => .error "embedding failed") (fun _ => []) "hello" [] =
      .error "embedding failed" :=
  c4_embedding_error_propagation.1 (fun _ => .error "embedding failed") (fun _ => [])
    "hello" [] "embedding failed" rfl

def hybridFallbackResult : HybridResult := ⟨"question", mkRat 7 10, "hybrid-fallback"⟩

/-- C4 counterexample: with the semantic model ready and an embedding stage
that throws, `HybridIntentParser.parse` returns the Bayes-fallback result — a
normal result computed without the embedding signal — instead of propagating
any error to its caller, refuting the claim for the cited
`HybridIntentParser.parse`. -/
theorem c4_counterexample :
    hybridParse true (fun _ => .error "embedding generator threw")
      (fun _ => hybridFallbackResult) "hello" = hybridFallbackResult ∧
    hybridFallbackResult.parser = "hybrid-fallback" :=
  ⟨rfl, rfl⟩

lemma getFallbackParser_eq (cfg : FactoryConfig) (ok : PKind → Bool) :
    getFallbackParser cfg ok = if ok .fast then .ok .fast else .error .initFailed := by
  unfold getFallbackParser getNamedParser
  by_cases he : parserEnabled cfg .fast
  · by_cases ho : ok .fast <;> simp [he, ho]
  · simp [he]

lemma kindName_parse (k : PKind) : parseParserName (kindName k) = some k := by
  cases k <;> rfl

/-- C6 (amended): when construction of a requested implementation fails,
`getParser` does not walk the `distilbert → hybrid → fast → original` chain
(that order is consulted only by `getDefaultParser`, for unrecognized names);
it goes straight to `getFallbackParser`, which yields the Fast parser when
Fast initialization succeeds (constructing an emergency instance even when
Fast is disabled) and surfaces an initialization failure otherwise. -/
theorem c6_fallback_to_fast :
    (∀ (cfg : FactoryConfig) (ok : PKind → Bool),
        getFallbackParser cfg ok = if ok .fast then .ok .fast else .error .initFailed) ∧
    (∀ (cfg : FactoryConfig) (ok : PKind → Bool) (k : PKind) (e : FactoryError),
        getNamedParser cfg ok k = .error e →
        getParser cfg ok (some (kindName k)) =
          if ok .fast then .ok .fast else .error .initFailed) := by
  refine ⟨getFallbackParser_eq, ?_⟩
  intro cfg ok k e hk
  unfold getParser
  simp only [Option.getD_some, kindName_parse]
  unfold getKnownParser
  rw [hk]
  exact getFallbackParser_eq cfg ok

/-- Factory configuration of the C6 counterexample: DistilBERT and Hybrid
enabled, Fast and Original disabled, DistilBERT the default. -/
def cfgC6 : FactoryConfig := ⟨true, true, false, false, "distilbert"⟩

/-- Initialization oracle of the C6 counterexample: only DistilBERT fails. -/
def okC6 : PKind → Bool := fun k => match k with
  | .distilbert => false
  | _ => true

def cfgAllC6 : FactoryConfig := ⟨true, true, true, true, "distilbert"⟩

def okNoneC6 : PKind → Bool := fun _ => false

deriving instance DecidableEq for Except

theorem c6_witness :
    getNamedParser cfgC6 okC6 .distilbert = .error .initFailed ∧
    getParser cfgC6 okC6 (some "distilbert") = .ok .fast := by
  refine ⟨by decide, ?_⟩
  exact (c6_fallback_to_fast.2 cfgC6 okC6 .distilbert .initFailed (by decide)).trans (by decide)

/-- C6 counterexample: the requested `distilbert` fails while `hybrid` — the
next implementation in the documented preference order — is enabled and would
succeed, yet `getParser` answers with the emergency Fast parser, never trying
`hybrid`; and when every implementation (the Fast constructor included) fails,
`getParser` surfaces the initialization failure instead of producing an
emergency fallback. -/
theorem c6_counterexample :
    getNamedParser cfgC6 okC6 .hybrid = .ok .hybrid ∧
    getParser cfgC6 okC6 (some "distilbert") = .ok .fast ∧
    PKind.fast ≠ PKind.hybrid ∧
    getParser cfgAllC6 okNoneC6 (some "distilbert") = .error .initFailed := by
  refine ⟨by decide, by decide, by decide, by decide⟩

/-- C10 (amended): the entity list returned by `extractEntities` is sorted in
non-decreasing `start` order (the final sort), and the merge pass combines a
pair that is adjacent in the extraction order and satisfies the merge trigger
into a single entity whose confidence is the maximum of the two — but the
merge pass runs before the sort, so only extraction-order-adjacent pairs are
merged (see the counterexample for a pair adjacent only after sorting). -/
theorem c10_sorted_and_merge_rule :
    (∀ (msg : String) (raw : List Entity),
        List.Sorted startLE (extractEntitiesPost msg raw)) ∧
    (∀ (msg : String) (c n : Entity), mergeCond msg c n = true →
        mergeLoop msg c [n] = [mergedEnt msg c n] ∧
        (mergedEnt msg c n).confidence = jsMax c.confidence n.confidence) := by
  constructor
  · intro msg raw
    exact List.sorted_insertionSort startLE (mergeAdjacent msg raw)
  · intro msg c n h
    constructor
    · unfold mergeLoop
      rw [if_pos h]
      rfl
    · rfl

/-- First entity of the C10 counterexample: `tomorrow`, emitted by an earlier
temporal pattern, spanning offsets 4-12. -/
def entC10a : Entity := ⟨"datetime", "tomorrow", "DATE", mkRat 95 100, 4, 12⟩

/-- Second entity of the C10 counterexample: `mon`, emitted by a later
pattern, spanning offsets 0-3 (before `tomorrow` in the text). -/
def entC10b : Entity := ⟨"datetime", "mon", "DATE", mkRat 95 100, 0, 3⟩

theorem c10_witness :
    mergeLoop "mon tomorrow" entC10b [entC10a] =
      [mergedEnt "mon tomorrow" entC10b entC10a] ∧
    (mergedEnt "mon tomorrow" entC10b entC10a).confidence =
      jsMax entC10b.confidence entC10a.confidence :=
  c10_sorted_and_merge_rule.2 "mon tomorrow" entC10b entC10a (by decide)

/-- C10 counterexample: the extraction stages can emit two same-type entities
out of text order (`tomorrow` before `mon` here); the merge pass sees them in
that order, computes a negative gap and keeps both, and the final sort then
places them adjacent — same `entity_type`, gap 1, no sentence punctuation —
yet unmerged, refuting the claim that all such adjacent pairs are merged. -/
theorem c10_counterexample :
    extractEntitiesPost "mon tomorrow" [entC10a, entC10b] = [entC10b, entC10a] ∧
    entC10b.entity_type = entC10a.entity_type ∧
    (0 : ℤ) ≤ entC10a.start - entC10b.endPos ∧
    entC10a.start - entC10b.endPos ≤ 2 ∧
    endsSentencePunct (strSlice "mon tomorrow" entC10b.endPos entC10a.start) = false ∧
    entC10b ≠ entC10a :=
  ⟨by decide, by decide, by decide, by decide, by decide, by decide⟩

/-! ## Cosine-layer lemmas -/

lemma cosineFold_eq (l : List (ℝ × ℝ)) : ∀ d nA nB : ℝ,
    l.foldl (fun acc p => (acc.1 + p.1 * p.2, acc.2.1 + p.1 * p.1, acc.2.2 + p.2 * p.2))
      (d, nA, nB) =
      (d + (l.map (fun p => p.1 * p.2)).sum,
       nA + (l.map (fun p => p.1 * p.1)).sum,
       nB + (l.map (fun p => p.2 * p.2)).sum) := by
  induction l with
  | nil => intro d nA nB; simp
  | cons p t ih =>
    intro d nA nB
    simp only [List.foldl_cons, List.map_cons, List.sum_cons, ih]
    simp only [Prod.mk.injEq]
    refine ⟨by ring, by ring, by ring⟩

lemma zip_map_fst_sq : ∀ (a b : List ℝ), a.length = b.length →
    ((a.zip b).map (fun p => p.1 * p.1)).sum = (a.map (fun x => x * x)).sum := by
  intro a
  induction a with
  | nil => intro b _; simp
  | cons x t ih =>
    intro b h
    cases b with
    | nil => simp at h
    | cons y u =>
      simp only [List.zip_cons_cons, List.map_cons, List.sum_cons]
      rw [ih u (by simpa using h)]

lemma zip_map_snd_sq : ∀ (a b : List ℝ), a.length = b.length →
    ((a.zip b).map (fun p => p.2 * p.2)).sum = (b.map (fun x => x * x)).sum := by
  intro a
  induction a with
  | nil =>
    intro b h
    cases b with
    | nil => simp
    | cons y u => simp at h
  | cons x t ih =>
    intro b h
    cases b with
    | nil => simp at h
    | cons y u =>
      simp only [List.zip_cons_cons, List.map_cons, List.sum_cons]
      rw [ih u (by simpa using h)]

/-- The loop of `MathUtils.cosineSimilarity` computes the spec formula: dot
product over the product of Euclidean norms, 0 when the denominator is zero —
and the denominator is zero exactly when one of the two norms is. -/
lemma cosineSimilarity_eq_spec (a b : List ℝ) (h : a.length = b.length) :
    cosineSimilarity a b = some (specCosine a b) := by
  unfold cosineSimilarity
  rw [if_neg (by simp [h])]
  unfold specCosine specNorm specDot
  simp only [cosineAccum, cosineFold_eq, zero_add]
  rw [zip_map_fst_sq a b h, zip_map_snd_sq a b h]
  simp only [mul_eq_zero]

lemma foldl_max_mem (l : List ℝ) : ∀ x : ℝ, l.foldl max x = x ∨ l.foldl max x ∈ l := by
  induction l with
  | nil => intro x; left; rfl
  | cons y t ih =>
    intro x
    rcases ih (max x y) with h | h
    · rcases max_choice x y with hm | hm
      · left; rw [List.foldl_cons, h, hm]
      · right; rw [List.foldl_cons, h, hm]; exact List.mem_cons_self _ _
    · right; exact List.mem_cons_of_mem _ h

lemma le_foldl_max (l : List ℝ) : ∀ x : ℝ,
    x ≤ l.foldl max x ∧ ∀ y ∈ l, y ≤ l.foldl max x := by
  induction l with
  | nil =>
    intro x
    refine ⟨le_refl x, ?_⟩
    intro y hy
    cases hy
  | cons z t ih =>
    intro x
    obtain ⟨h1, h2⟩ := ih (max x z)
    refine ⟨le_trans (le_max_left x z) h1, ?_⟩
    intro y hy
    rcases List.mem_cons.mp hy with h | h
    · rw [h]; exact le_trans (le_max_right x z) h1
    · exact h2 y h

lemma mapM_eq_map_of_eq {f : List ℝ → Option ℝ} {g : List ℝ → ℝ} :
    ∀ l : List (List ℝ), (∀ v ∈ l, f v = some (g v)) → l.mapM f = some (l.map g) := by
  intro l
  induction l with
  | nil => intro _; rfl
  | cons v t ih =>
    intro h
    rw [List.mapM_cons, h v (List.mem_cons_self _ _),
      ih (fun w hw => h w (List.mem_cons_of_mem _ hw))]
    rfl

/-- C5: the per-intent score of `calculateIntentScores` is exactly the
maximum (membership plus upper bound over all seeds) of the spec-side cosine
similarities against the cached seed vectors of the intent, and
`MathUtils.cosineSimilarity` computes the spec formula — dot product divided
by the product of the norms, 0 when either vector has zero norm. -/
theorem c5_max_cosine_score (msg v : List ℝ) (vs : List (List ℝ))
    (hlen : ∀ w ∈ v :: vs, w.length = msg.length) :
    intentScore msg (v :: vs) = some (specIntentScore msg v vs) ∧
    specIntentScore msg v vs ∈ (v :: vs).map (specCosine msg) ∧
    (∀ x ∈ (v :: vs).map (specCosine msg), x ≤ specIntentScore msg v vs) ∧
    (∀ a b : List ℝ, a.length = b.length → cosineSimilarity a b = some (specCosine a b)) := by
  have hcs : ∀ w ∈ v :: vs, cosineSimilarity msg w = some (specCosine msg w) :=
    fun w hw => cosineSimilarity_eq_spec msg w ((hlen w hw).symm)
  refine ⟨?_, ?_, ?_, fun a b h => cosineSimilarity_eq_spec a b h⟩
  · unfold intentScore
    rw [mapM_eq_map_of_eq (v :: vs) hcs]
    rfl
  · unfold specIntentScore
    rw [List.map_cons]
    rcases foldl_max_mem (vs.map (specCosine msg)) (specCosine msg v) with h | h
    · rw [h]; exact List.mem_cons_self _ _
    · exact List.mem_cons_of_mem _ h
  · intro x hx
    unfold specIntentScore
    obtain ⟨h1, h2⟩ := le_foldl_max (vs.map (specCosine msg)) (specCosine msg v)
    rw [List.map_cons] at hx
    rcases List.mem_cons.mp hx with h | h
    · rw [h]; exact h1
    · exact h2 x h

theorem c5_witness :
    intentScore [(1 : ℝ), 0] ([0, 1] :: [[1, 0]]) =
      some (specIntentScore [(1 : ℝ), 0] [0, 1] [[1, 0]]) ∧
    specIntentScore [(1 : ℝ), 0] [0, 1] [[1, 0]] ∈
      ([0, 1] :: [[1, 0]]).map (specCosine [(1 : ℝ), 0]) ∧
    (∀ x ∈ ([0, 1] :: [[1, 0]]).map (specCosine [(1 : ℝ), 0]),
      x ≤ specIntentScore [(1 : ℝ), 0] [0, 1] [[1, 0]]) ∧
    (∀ a b : List ℝ, a.length = b.length → cosineSimilarity a b = some (specCosine a b)) :=
  c5_max_cosine_score [1, 0] [0, 1] [[1, 0]] (by intro w hw; fin_cases hw <;> rfl)

/-- Raw scores of the C1 counterexample: `context` carries the (achievable)
cosine similarity -1, the rest 0.01. -/
def rawC1 : Scores :=
  ⟨mkRat 1 100, mkRat 1 100, mkRat 1 100, mkRat 1 100,
   mkRat 1 100, mkRat 1 100, mkRat 1 100, mkRat (-1) 1⟩

/-- C1 counterexample: cosine similarity can be negative (for example -1 for
opposite one-dimensional vectors); no booster rule ever touches `context` and
the final renormalization only divides when the maximum exceeds 1, so the
negative raw score survives to the returned map, which therefore is not
within `[0, 1]`. -/
theorem c1_counterexample :
    cosineSimilarity [(1 : ℝ)] [(-1 : ℝ)] = some (-1) ∧
    (applyEntityBoosting rawC1 [] "zzz").context = mkRat (-1) 1 ∧
    ¬ (0 ≤ (applyEntityBoosting rawC1 [] "zzz").context) := by
  refine ⟨?_, by decide, by decide⟩
  unfold cosineSimilarity
  rw [if_neg (by simp)]
  simp only [List.zip_cons_cons, List.zip_nil_right, cosineAccum, List.foldl_cons,
    List.foldl_nil]
  norm_num [Real.sqrt_one]
